import Mathlib

/-!
# Verification of the sheets-db-api core (src/services/sheetsService.ts)

Shallow embedding of the value codec (formatValueForSheets /
formatValueFromSheets) and the tabular record mapper (getRows, getRow,
appendRow, updateRow, deleteSheet, deleteRow) of the repository.

Scalar cell values (`string | number | boolean | null` in TypeScript) are
modelled by `Value`.  Strings are Lean `String`s; the codec regexes are
fixed-shape patterns and are embedded as total parsing functions over the
underlying character lists.  The one piece of behaviour that lives outside
the repository is what `new Date(s)` followed by the `getUTC*` accessors
does on a string that matches the ISO regex; that is embedded in
`jsUtcFields` below, following the ECMAScript date-time string format as
implemented by V8 (the deployment target is the nodejs20 runtime):
month 01-12 and day 01-31 are accepted and day overflow past the month
length is normalized by carrying into the following month (MakeDay),
hour 24 with minute = second = millisecond = 0 denotes midnight at the end
of the day, and any other out-of-range field yields an invalid date, whose
`getUTC*` accessors all return NaN.
-/

namespace SheetsDb

/-- A scalar cell / JSON value: `string | number | boolean | null`.
Numbers are modelled as integers (all numeric behaviour the claims touch
is pass-through, so the numeric subtype is irrelevant). -/
inductive Value where
  | str (s : String)
  | num (n : Int)
  | bool (b : Bool)
  | null
deriving DecidableEq, Repr

/-- Numeric value of a decimal digit character. -/
def digitVal (c : Char) : Nat := c.toNat - 48

/-- The decimal digit character for `n < 10`. -/
def digitChar (n : Nat) : Char := Char.ofNat (48 + n)

/-- Value of a big-endian list of decimal digit characters
(`parseInt(_, 10)` on an all-digit string). -/
def natOfDigits (cs : List Char) : Nat :=
  cs.foldl (fun a c => a * 10 + digitVal c) 0

/-- Fuel-driven decimal printer (digits of `n`, big-endian). -/
def decDigitsAux : Nat → Nat → List Char
  | 0, _ => []
  | fuel + 1, n =>
    if n < 10 then [digitChar n]
    else decDigitsAux fuel (n / 10) ++ [digitChar (n % 10)]

/-- Decimal digits of `n`, big-endian, no leading zeros: JavaScript
number-to-string for a nonnegative integer. -/
def decDigits (n : Nat) : List Char := decDigitsAux (n + 1) n

/-- `String(n).padStart(2, '0')` for a natural number. -/
def pad2 (n : Nat) : List Char :=
  if n < 10 then '0' :: decDigits n else decDigits n

/-- Take exactly `n` decimal digit characters from the front. -/
def takeDigits : Nat → List Char → Option (List Char × List Char)
  | 0, cs => some ([], cs)
  | _ + 1, [] => none
  | n + 1, c :: cs =>
    if c.isDigit then
      match takeDigits n cs with
      | some (ds, r) => some (c :: ds, r)
      | none => none
    else none

/-- Consume one expected literal character. -/
def expectChar (a : Char) : List Char → Option (List Char)
  | [] => none
  | c :: cs => if c = a then some cs else none

/-- The digit fields of a string matching the wire ISO regex
`^\d\x7b4\x7d-\d\x7b2\x7d-\d\x7b2\x7dT\d\x7b2\x7d:\d\x7b2\x7d:\d\x7b2\x7d(\.\d\x7b3\x7d)?Z$`,
kept as raw character lists. -/
structure IsoFields where
  y4 : List Char
  mo2 : List Char
  d2 : List Char
  h2 : List Char
  mi2 : List Char
  s2 : List Char
  ms3 : Option (List Char)
deriving DecidableEq, Repr

def IsoFields.year (f : IsoFields) : Nat := natOfDigits f.y4
def IsoFields.month (f : IsoFields) : Nat := natOfDigits f.mo2
def IsoFields.day (f : IsoFields) : Nat := natOfDigits f.d2
def IsoFields.hour (f : IsoFields) : Nat := natOfDigits f.h2
def IsoFields.minute (f : IsoFields) : Nat := natOfDigits f.mi2
def IsoFields.second (f : IsoFields) : Nat := natOfDigits f.s2
def IsoFields.millis (f : IsoFields) : Nat :=
  natOfDigits (f.ms3.getD ['0', '0', '0'])

/-- Full-string match of the ISO_DATE_REGEX of the source, returning the
digit fields.  `none` exactly when the regex does not match. -/
def parseIso (cs : List Char) : Option IsoFields := do
  let (y4, r) ← takeDigits 4 cs
  let r ← expectChar '-' r
  let (mo2, r) ← takeDigits 2 r
  let r ← expectChar '-' r
  let (d2, r) ← takeDigits 2 r
  let r ← expectChar 'T' r
  let (h2, r) ← takeDigits 2 r
  let r ← expectChar ':' r
  let (mi2, r) ← takeDigits 2 r
  let r ← expectChar ':' r
  let (s2, r) ← takeDigits 2 r
  match r with
  | ['Z'] => some ⟨y4, mo2, d2, h2, mi2, s2, none⟩
  | '.' :: r2 =>
    match takeDigits 3 r2 with
    | none => none
    | some (ms3, r3) =>
      match r3 with
      | ['Z'] => some ⟨y4, mo2, d2, h2, mi2, s2, some ms3⟩
      | _ => none
  | _ => none

/-- The digit fields of a string matching the backend datetime regex
`^\d\x7b4\x7d-\d\x7b2\x7d-\d\x7b2\x7d \d\x7b2\x7d:\d\x7b2\x7d:\d\x7b2\x7d$`. -/
structure DtFields where
  y4 : List Char
  mo2 : List Char
  d2 : List Char
  h2 : List Char
  mi2 : List Char
  s2 : List Char
deriving DecidableEq, Repr

/-- Full-string match of SHEETS_DATETIME_REGEX of the source. -/
def parseSheetsDT (cs : List Char) : Option DtFields := do
  let (y4, r) ← takeDigits 4 cs
  let r ← expectChar '-' r
  let (mo2, r) ← takeDigits 2 r
  let r ← expectChar '-' r
  let (d2, r) ← takeDigits 2 r
  let r ← expectChar ' ' r
  let (h2, r) ← takeDigits 2 r
  let r ← expectChar ':' r
  let (mi2, r) ← takeDigits 2 r
  let r ← expectChar ':' r
  let (s2, r) ← takeDigits 2 r
  match r with
  | [] => some ⟨y4, mo2, d2, h2, mi2, s2⟩
  | _ => none

/-- Full-string match of SHEETS_DATE_REGEX
(`^\d\x7b4\x7d-\d\x7b2\x7d-\d\x7b2\x7d$`) of the source. -/
def parseSheetsDate (cs : List Char) : Option (List Char × List Char × List Char) := do
  let (y4, r) ← takeDigits 4 cs
  let r ← expectChar '-' r
  let (mo2, r) ← takeDigits 2 r
  let r ← expectChar '-' r
  let (d2, r) ← takeDigits 2 r
  match r with
  | [] => some (y4, mo2, d2)
  | _ => none

/-- Gregorian leap-year rule (as in ECMAScript time computations). -/
def isLeapYear (y : Nat) : Bool :=
  (y % 4 == 0 && y % 100 != 0) || y % 400 == 0

/-- Number of days in month `m` (1-12) of year `y`. -/
def daysInMonth (y m : Nat) : Nat :=
  if m = 2 then (if isLeapYear y then 29 else 28)
  else if m = 4 ∨ m = 6 ∨ m = 9 ∨ m = 11 then 30
  else 31

/-- Normalized UTC date-time fields, as read back by the `getUTC*`
accessors of a valid JavaScript `Date`. -/
structure DT where
  y : Nat
  m : Nat
  d : Nat
  hh : Nat
  mi : Nat
  ss : Nat
deriving DecidableEq, Repr

/-- ECMAScript MakeDay normalization restricted to month 1-12 and
day 1-32 (the only inputs reachable below): a day past the end of the
month carries into the following month, December 32 carries into January
of the next year.  Since the day is at most 32 the carry never spans more
than one month. -/
def carryDay (y m d : Nat) : Nat × Nat × Nat :=
  if d ≤ daysInMonth y m then (y, m, d)
  else if m = 12 then (y + 1, 1, d - 31)
  else (y, m + 1, d - daysInMonth y m)

/-- What `new Date(s)` followed by `getUTCFullYear/Month/Date/Hours/
Minutes/Seconds` yields on a string matching the ISO regex, per the
ECMAScript date-time string format on the nodejs20 (V8) runtime:
the year is any 4-digit value; month must be 01-12 and day 01-31 (day
overflow past the month length is normalized by `carryDay`); a time is
valid with hour ≤ 23, minute ≤ 59 and second ≤ 59, or as the special
end-of-day midnight 24:00:00.000 which normalizes to 00:00:00 of the next
day.  Any other combination gives an invalid date (`none`), whose
accessors all return NaN. -/
def jsUtcFields (f : IsoFields) : Option DT :=
  if 1 ≤ f.month ∧ f.month ≤ 12 ∧ 1 ≤ f.day ∧ f.day ≤ 31 then
    if f.hour ≤ 23 ∧ f.minute ≤ 59 ∧ f.second ≤ 59 then
      match carryDay f.year f.month f.day with
      | (y, m, d) => some ⟨y, m, d, f.hour, f.minute, f.second⟩
    else if f.hour = 24 ∧ f.minute = 0 ∧ f.second = 0 ∧ f.millis = 0 then
      match carryDay f.year f.month (f.day + 1) with
      | (y, m, d) => some ⟨y, m, d, 0, 0, 0⟩
    else none
  else none

/-- The template string
`${year}-${month}-${day} ${hours}:${minutes}:${seconds}` of the source,
where year is rendered unpadded and the other fields via
`String(_).padStart(2, '0')`. -/
def renderSheetsDateTime (t : DT) : String :=
  String.mk (decDigits t.y ++ ('-' :: (pad2 t.m ++ ('-' :: (pad2 t.d ++
    (' ' :: (pad2 t.hh ++ (':' :: (pad2 t.mi ++ (':' :: pad2 t.ss))))))))))

/-- The same template evaluated on an invalid date: every accessor
returns NaN, `NaN + 1` is NaN, `String(NaN) = "NaN"` and `padStart(2)`
leaves the three-character "NaN" unchanged. -/
def invalidDateRender : String := "NaN-NaN-NaN NaN:NaN:NaN"

/-- `formatValueForSheets` of the source: null/undefined become the empty
string; a string matching the ISO regex is parsed with `new Date` and
re-rendered from its UTC fields as `YYYY-MM-DD HH:mm:ss`; everything else
passes through unchanged. -/
def formatValueForSheets : Value → Value
  | .null => .str ""
  | .str s =>
    match parseIso s.data with
    | some f =>
      match jsUtcFields f with
      | some t => .str (renderSheetsDateTime t)
      | none => .str invalidDateRender
    | none => .str s
  | .num n => .num n
  | .bool b => .bool b

/-- `formatValueFromSheets` of the source: null/undefined/empty-string
become null; a string matching the backend datetime regex is split on its
single space and rejoined as `<date>T<time>.000Z`; a string matching the
backend date-only regex gets `T00:00:00.000Z` appended; everything else
passes through unchanged. -/
def formatValueFromSheets : Value → Value
  | .null => .null
  | .str s =>
    if s = "" then .null
    else
      match parseSheetsDT s.data with
      | some f =>
        .str (String.mk (f.y4 ++ ('-' :: (f.mo2 ++ ('-' :: f.d2)))) ++ "T" ++
          String.mk (f.h2 ++ (':' :: (f.mi2 ++ (':' :: f.s2)))) ++ ".000Z")
      | none =>
        if (parseSheetsDate s.data).isSome then .str (s ++ "T00:00:00.000Z")
        else .str s
  | .num n => .num n
  | .bool b => .bool b

/-- JavaScript `String(v)` coercion used on header cells
(`headers.map((h) => String(h))`). -/
def jsString : Value → String
  | .str s => s
  | .num n => toString n
  | .bool b => if b then "true" else "false"
  | .null => "null"

/-- A record (`RowData`): a JavaScript object modelled as an association
list in key-insertion order.  Built only through `setKey`, which keeps
keys unique. -/
abbrev Record := List (String × Value)

/-- JavaScript property assignment `obj[k] = v`: if the key is already
present its value is updated in place (key order unchanged), otherwise
the key is appended at the end.  Records are only ever built through
`setKey` starting from the empty object, so keys never repeat and
updating the first occurrence is updating the only occurrence. -/
def setKey : Record → String → Value → Record
  | [], k, v => [(k, v)]
  | p :: t, k, v => if p.1 = k then (k, v) :: t else p :: setKey t k v

/-- `row[index]` on a JavaScript array: `undefined` past the end.  The
only consumer immediately maps the cell through `formatValueFromSheets`,
which sends `undefined` and `null` to the same result, so `undefined` is
modelled as `Value.null`. -/
def rowCell (row : List Value) (i : Nat) : Value := row.getD i .null

/-- The `headers.forEach((header, index) => obj[header] = ...)` loop of
getRows / getRow: walk the headers, consuming the row positionally. -/
def buildRecordGo (r : Record) : List String → List Value → Record
  | [], _ => r
  | h :: hs, row =>
    buildRecordGo (setKey r h (formatValueFromSheets (rowCell row 0))) hs row.tail

/-- The record built for one data row from the header list. -/
def buildRecord (headers : List String) (row : List Value) : Record :=
  buildRecordGo [] headers row

/-- `getRows` of the source, as a function of the fetched grid
(`response.data.values || []`): fewer than 2 rows gives the empty list,
otherwise row 1 is coerced to header strings and every later row becomes
a record. -/
def getRows (values : List (List Value)) : List Record :=
  if values.length < 2 then []
  else
    let headers := (values.headD []).map jsString
    values.tail.map (fun row => buildRecord headers row)

/-- `getRow` of the source, as a function of the headers read from row 1
and the optional fetched target row (`response.data.values?.[0]`):
`none` (null) when the row has no data, otherwise the built record. -/
def getRow (headers : List String) (fetched : Option (List Value)) : Option Record :=
  match fetched with
  | none => none
  | some row => some (buildRecord headers row)

/-- Sheet metadata returned by listSheets. -/
structure SheetInfo where
  sheetId : Int
  title : String
  index : Int
deriving DecidableEq, Repr

/-- A1-style range expressions issued by the mapper, kept structured:
either a whole sheet by quoted title, or a single 1-based row of it
(the source's template strings render these injectively). -/
inductive RangeExpr where
  | wholeSheet (sheetName : String)
  | rowRange (sheetName : String) (row : Int)
deriving DecidableEq, Repr

/-- Structural change descriptors sent through batchUpdate. -/
inductive ChangeReq where
  | addSheet (title : String)
  | deleteSheetReq (sheetId : Int)
  | deleteDimensionRows (sheetId : Int) (startIndex endIndex : Int)
deriving DecidableEq, Repr

/-- A backend write issued by the mapper, in program order. -/
inductive BackendCall where
  | updateValues (range : RangeExpr) (values : List Value)
  | appendValues (range : RangeExpr) (values : List Value)
  | batchUpdate (reqs : List ChangeReq)
deriving DecidableEq, Repr

/-- `data[header]` on the input object: the stored value, or null when
the key is absent (`undefined` and `null` flow into the same
`formatValueForSheets` branch). -/
def lookupD (data : Record) (k : String) : Value :=
  (data.lookup k).getD .null

/-- `sheetsList.find((s) => s.title === sheetName)`. -/
def findSheet (sheetsList : List SheetInfo) (name : String) : Option SheetInfo :=
  sheetsList.find? (fun s => s.title = name)

/-- The not-found message template shared by deleteSheet and deleteRow. -/
def sheetNotFoundMsg (name : String) : String :=
  "Sheet \"" ++ name ++ "\" not found"

/-- `deleteSheet` of the source, as a function of the listSheets result:
either the error thrown (before any write) or the list of writes issued. -/
def deleteSheet (sheetsList : List SheetInfo) (name : String) :
    Except String (List BackendCall) :=
  match findSheet sheetsList name with
  | none => .error (sheetNotFoundMsg name)
  | some sheet => .ok [.batchUpdate [.deleteSheetReq sheet.sheetId]]

/-- `deleteRow` of the source, as a function of the listSheets result:
either the error thrown (before any write) or the delete-dimension write
over the 0-based row range [rowIndex - 1, rowIndex). -/
def deleteRow (sheetsList : List SheetInfo) (name : String) (rowIndex : Int) :
    Except String (List BackendCall) :=
  match findSheet sheetsList name with
  | none => .error (sheetNotFoundMsg name)
  | some sheet =>
    .ok [.batchUpdate [.deleteDimensionRows sheet.sheetId (rowIndex - 1) rowIndex]]

/-- The longest run of digit characters at the end of the string: what
the capture group of the source's `/:?(\d+)$/` match holds (the colon is
optional, so the match is simply the maximal trailing digit run). -/
def trailingDigits (cs : List Char) : List Char :=
  (cs.reverse.takeWhile Char.isDigit).reverse

/-- Row-index extraction from the reported updated range:
`updatedRange.match(/:?(\d+)$/)` then `parseInt(match[1], 10)`, with the
sentinel -1 when the regex does not match (i.e. the string does not end
in a digit). -/
def parseRowIndex (updatedRange : String) : Int :=
  match trailingDigits updatedRange.data with
  | [] => -1
  | ds => Int.ofNat (natOfDigits ds)

/-- `appendRow` of the source, as a function of the headers read from
row 1 and the updated-range string of the append response.  Returns the
backend writes issued (in order: the row-1 header write when the sheet
had no headers, then the single append) and the reported rowIndex. -/
def appendRow (sheetName : String) (headers0 : List String) (data : Record)
    (updatedRange : String) : List BackendCall × Int :=
  let headers := if headers0.isEmpty then data.map Prod.fst else headers0
  let headerWrites : List BackendCall :=
    if headers0.isEmpty then
      [.updateValues (.rowRange sheetName 1) (headers.map .str)]
    else []
  let rowValues := headers.map (fun h => formatValueForSheets (lookupD data h))
  (headerWrites ++ [.appendValues (.wholeSheet sheetName) rowValues],
    parseRowIndex updatedRange)

/-- `updateRow` of the source, as a function of the headers read from
row 1: the single full-row overwrite issued. -/
def updateRow (sheetName : String) (headers : List String) (rowIndex : Int)
    (data : Record) : List BackendCall :=
  [.updateValues (.rowRange sheetName rowIndex)
    (headers.map (fun h => formatValueForSheets (lookupD data h)))]

/-! ## Decimal digit and printer lemmas -/

theorem isDigit_toNat_bounds {c : Char} (h : c.isDigit = true) :
    48 ≤ c.toNat ∧ c.toNat ≤ 57 := by
  simp [Char.isDigit] at h
  exact h

theorem digitVal_lt {c : Char} (h : c.isDigit = true) : digitVal c < 10 := by
  have := isDigit_toNat_bounds h
  unfold digitVal
  omega

theorem digitChar_digitVal {c : Char} (h : c.isDigit = true) :
    digitChar (digitVal c) = c := by
  have hb := isDigit_toNat_bounds h
  unfold digitChar digitVal
  have : 48 + (c.toNat - 48) = c.toNat := by omega
  rw [this, Char.ofNat_toNat]

theorem decDigitsAux_small {fuel n : Nat} (hf : 1 ≤ fuel) (h : n < 10) :
    decDigitsAux fuel n = [digitChar n] := by
  match fuel, hf with
  | f + 1, _ => simp [decDigitsAux, h]

theorem decDigitsAux_mono {n : Nat} :
    ∀ {f1 f2 : Nat}, n < f1 → f1 ≤ f2 → decDigitsAux f1 n = decDigitsAux f2 n := by
  induction n using Nat.strong_induction_on with
  | _ n ih =>
    intro f1 f2 h1 h12
    by_cases hn : n < 10
    · rw [decDigitsAux_small (by omega) hn, decDigitsAux_small (by omega) hn]
    · match f1, f2, h1, h12 with
      | g1 + 1, g2 + 1, h1, h12 =>
        simp only [decDigitsAux, if_neg hn]
        have hdiv : n / 10 < n := by omega
        congr 1
        exact ih (n / 10) hdiv (show n / 10 < g1 by omega) (show g1 ≤ g2 by omega)

theorem decDigits_small {n : Nat} (h : n < 10) : decDigits n = [digitChar n] :=
  decDigitsAux_small (by omega) h

theorem decDigits_step {n : Nat} (h : 10 ≤ n) :
    decDigits n = decDigits (n / 10) ++ [digitChar (n % 10)] := by
  unfold decDigits
  simp only [decDigitsAux, if_neg (by omega : ¬n < 10)]
  congr 1
  exact (decDigitsAux_mono (show n / 10 < n / 10 + 1 by omega)
    (show n / 10 + 1 ≤ n by omega)).symm

theorem natOfDigits_two {c1 c2 : Char} :
    natOfDigits [c1, c2] = digitVal c1 * 10 + digitVal c2 := by
  simp [natOfDigits, List.foldl]

theorem pad2_natOfDigits {c1 c2 : Char} (h1 : c1.isDigit = true)
    (h2 : c2.isDigit = true) : pad2 (natOfDigits [c1, c2]) = [c1, c2] := by
  have hv1 := digitVal_lt h1
  have hv2 := digitVal_lt h2
  rw [natOfDigits_two]
  by_cases hz : digitVal c1 = 0
  · have hlt : digitVal c1 * 10 + digitVal c2 < 10 := by omega
    rw [pad2, if_pos hlt, decDigits_small hlt]
    have hc1 : c1 = '0' := by
      have := digitChar_digitVal h1
      rw [hz] at this
      exact this.symm
    have : digitVal c1 * 10 + digitVal c2 = digitVal c2 := by omega
    rw [this, digitChar_digitVal h2, hc1]
  · have hge : 10 ≤ digitVal c1 * 10 + digitVal c2 := by omega
    rw [pad2, if_neg (by omega), decDigits_step hge]
    have hdiv : (digitVal c1 * 10 + digitVal c2) / 10 = digitVal c1 := by omega
    have hmod : (digitVal c1 * 10 + digitVal c2) % 10 = digitVal c2 := by omega
    rw [hdiv, hmod, decDigits_small hv1, digitChar_digitVal h1, digitChar_digitVal h2]
    rfl

theorem natOfDigits_four {c1 c2 c3 c4 : Char} :
    natOfDigits [c1, c2, c3, c4] =
      ((digitVal c1 * 10 + digitVal c2) * 10 + digitVal c3) * 10 + digitVal c4 := by
  simp [natOfDigits, List.foldl]

theorem decDigits_natOfDigits_four {c1 c2 c3 c4 : Char} (h1 : c1.isDigit = true)
    (h2 : c2.isDigit = true) (h3 : c3.isDigit = true) (h4 : c4.isDigit = true)
    (hv : 1000 ≤ natOfDigits [c1, c2, c3, c4]) :
    decDigits (natOfDigits [c1, c2, c3, c4]) = [c1, c2, c3, c4] := by
  have hv1 := digitVal_lt h1
  have hv2 := digitVal_lt h2
  have hv3 := digitVal_lt h3
  have hv4 := digitVal_lt h4
  rw [natOfDigits_four] at hv ⊢
  set a := digitVal c1 with ha
  set b := digitVal c2 with hb
  set c := digitVal c3 with hc
  set d := digitVal c4 with hd
  have hstep1 : decDigits (((a * 10 + b) * 10 + c) * 10 + d) =
      decDigits ((a * 10 + b) * 10 + c) ++ [digitChar d] := by
    rw [decDigits_step (by omega)]
    congr 2
    · omega
    · congr 1
      omega
  have hstep2 : decDigits ((a * 10 + b) * 10 + c) =
      decDigits (a * 10 + b) ++ [digitChar c] := by
    rw [decDigits_step (by omega)]
    congr 2
    · omega
    · congr 1
      omega
  have hstep3 : decDigits (a * 10 + b) = decDigits a ++ [digitChar b] := by
    rw [decDigits_step (by omega)]
    congr 2
    · omega
    · congr 1
      omega
  rw [hstep1, hstep2, hstep3, decDigits_small (by omega)]
  rw [ha, hb, hc, hd, digitChar_digitVal h1, digitChar_digitVal h2,
    digitChar_digitVal h3, digitChar_digitVal h4]
  rfl

/-! ## Parser lemmas -/

/-- All characters of the list are decimal digits. -/
abbrev allDigits (cs : List Char) : Prop := ∀ c ∈ cs, c.isDigit = true

/-- The trailing part of a wire ISO string after the seconds field. -/
def isoTail : Option (List Char) → List Char
  | none => ['Z']
  | some ms => '.' :: (ms ++ ['Z'])

theorem takeDigits_sound :
    ∀ {n : Nat} {cs ds r : List Char}, takeDigits n cs = some (ds, r) →
      cs = ds ++ r ∧ ds.length = n ∧ allDigits ds := by
  intro n
  induction n with
  | zero =>
    intro cs ds r h
    simp [takeDigits] at h
    obtain ⟨h1, h2⟩ := h
    subst h1
    subst h2
    exact ⟨rfl, rfl, by intro c hc; simp at hc⟩
  | succ m ih =>
    intro cs ds r h
    match cs with
    | [] => simp [takeDigits] at h
    | c :: cst =>
      rw [takeDigits] at h
      by_cases hd : c.isDigit
      · rw [if_pos hd] at h
        cases e : takeDigits m cst with
        | none => rw [e] at h; simp at h
        | some p =>
          obtain ⟨ds0, r0⟩ := p
          rw [e] at h
          simp only [Option.some.injEq, Prod.mk.injEq] at h
          obtain ⟨h1, h2⟩ := h
          obtain ⟨hcs, hlen, hdig⟩ := ih e
          subst h2
          rw [show ds = c :: ds0 from h1.symm]
          refine ⟨by rw [hcs]; rfl, by simp [hlen], ?_⟩
          intro x hx
          rcases List.mem_cons.mp hx with hx | hx
          · rw [hx]; exact hd
          · exact hdig x hx
      · rw [if_neg hd] at h
        simp at h

theorem takeDigits_complete :
    ∀ {ds : List Char} (r : List Char), allDigits ds →
      takeDigits ds.length (ds ++ r) = some (ds, r) := by
  intro ds
  induction ds with
  | nil => intro r _; simp [takeDigits]
  | cons c t ih =>
    intro r hall
    have hc : c.isDigit = true := hall c (by simp)
    have ht : allDigits t := by
      intro x hx
      exact hall x (List.mem_cons_of_mem c hx)
    simp only [List.length_cons, List.cons_append, takeDigits, if_pos hc]
    rw [show t.append r = t ++ r from rfl, ih r ht]

theorem expectChar_sound {a : Char} {cs r : List Char}
    (h : expectChar a cs = some r) : cs = a :: r := by
  match cs with
  | [] => simp [expectChar] at h
  | c :: t =>
    rw [expectChar] at h
    by_cases hc : c = a
    · rw [if_pos hc] at h
      simp only [Option.some.injEq] at h
      rw [hc, h]
    · rw [if_neg hc] at h
      simp at h

theorem expectChar_cons (a : Char) (r : List Char) :
    expectChar a (a :: r) = some r := by
  simp [expectChar]

set_option maxHeartbeats 1600000 in
theorem parseIso_sound {cs : List Char} {f : IsoFields} (h : parseIso cs = some f) :
    cs = f.y4 ++ ('-' :: (f.mo2 ++ ('-' :: (f.d2 ++ ('T' :: (f.h2 ++ (':' ::
      (f.mi2 ++ (':' :: (f.s2 ++ isoTail f.ms3)))))))))) ∧
    f.y4.length = 4 ∧ f.mo2.length = 2 ∧ f.d2.length = 2 ∧ f.h2.length = 2 ∧
    f.mi2.length = 2 ∧ f.s2.length = 2 ∧
    allDigits f.y4 ∧ allDigits f.mo2 ∧ allDigits f.d2 ∧ allDigits f.h2 ∧
    allDigits f.mi2 ∧ allDigits f.s2 ∧
    (∀ ms, f.ms3 = some ms → ms.length = 3 ∧ allDigits ms) := by
  simp only [parseIso, bind, Option.bind_eq_some] at h
  obtain ⟨⟨y4, r1⟩, e1, h⟩ := h
  obtain ⟨r2, e2, h⟩ := h
  obtain ⟨⟨mo2, r3⟩, e3, h⟩ := h
  obtain ⟨r4, e4, h⟩ := h
  obtain ⟨⟨d2, r5⟩, e5, h⟩ := h
  obtain ⟨r6, e6, h⟩ := h
  obtain ⟨⟨h2, r7⟩, e7, h⟩ := h
  obtain ⟨r8, e8, h⟩ := h
  obtain ⟨⟨mi2, r9⟩, e9, h⟩ := h
  obtain ⟨r10, e10, h⟩ := h
  obtain ⟨⟨s2, r11⟩, e11, h⟩ := h
  dsimp only at e2 e4 e6 e8 e10
  obtain ⟨hc1, hl1, hd1⟩ := takeDigits_sound e1
  obtain ⟨hc3, hl3, hd3⟩ := takeDigits_sound e3
  obtain ⟨hc5, hl5, hd5⟩ := takeDigits_sound e5
  obtain ⟨hc7, hl7, hd7⟩ := takeDigits_sound e7
  obtain ⟨hc9, hl9, hd9⟩ := takeDigits_sound e9
  obtain ⟨hc11, hl11, hd11⟩ := takeDigits_sound e11
  have hr1 := expectChar_sound e2
  have hr3 := expectChar_sound e4
  have hr5 := expectChar_sound e6
  have hr7 := expectChar_sound e8
  have hr9 := expectChar_sound e10
  split at h
  · rename_i rx heq1
    dsimp only at heq1
    subst heq1
    simp only [Option.some.injEq] at h
    subst h
    refine ⟨?_, hl1, hl3, hl5, hl7, hl9, hl11, hd1, hd3, hd5, hd7, hd9, hd11, ?_⟩
    · rw [hc1, hr1, hc3, hr3, hc5, hr5, hc7, hr7, hc9, hr9, hc11]
      rfl
    · intro ms hms
      exact Option.noConfusion hms
  · rename_i rx r2x heq1
    dsimp only at heq1
    subst heq1
    cases e12 : takeDigits 3 r2x with
    | none => rw [e12] at h; simp at h
    | some p =>
      obtain ⟨ms3, r13⟩ := p
      rw [e12] at h
      obtain ⟨hcm, hlm, hdm⟩ := takeDigits_sound e12
      dsimp only at h
      split at h
      · simp only [Option.some.injEq] at h
        subst h
        refine ⟨?_, hl1, hl3, hl5, hl7, hl9, hl11, hd1, hd3, hd5, hd7, hd9, hd11, ?_⟩
        · rw [hc1, hr1, hc3, hr3, hc5, hr5, hc7, hr7, hc9, hr9, hc11, hcm]
          rfl
        · intro ms hms
          simp only [Option.some.injEq] at hms
          subst hms
          exact ⟨hlm, hdm⟩
      · exact Option.noConfusion h
  · exact Option.noConfusion h

theorem takeDigits_complete_n {n : Nat} {ds : List Char} (h : allDigits ds)
    (hl : ds.length = n) :
    ∀ r, takeDigits n (ds ++ r) = some (ds, r) := by
  intro r
  rw [← hl]
  exact takeDigits_complete r h

theorem parseSheetsDT_render {y4 mo2 d2 h2 mi2 s2 : List Char}
    (hl1 : y4.length = 4) (hl2 : mo2.length = 2) (hl3 : d2.length = 2)
    (hl4 : h2.length = 2) (hl5 : mi2.length = 2) (hl6 : s2.length = 2)
    (hd1 : allDigits y4) (hd2 : allDigits mo2) (hd3 : allDigits d2)
    (hd4 : allDigits h2) (hd5 : allDigits mi2) (hd6 : allDigits s2) :
    parseSheetsDT (y4 ++ ('-' :: (mo2 ++ ('-' :: (d2 ++ (' ' :: (h2 ++ (':' ::
      (mi2 ++ (':' :: s2)))))))))) = some ⟨y4, mo2, d2, h2, mi2, s2⟩ := by
  have hZ : takeDigits 2 s2 = some (s2, []) := by
    rw [← hl6]
    have := takeDigits_complete [] hd6
    rwa [List.append_nil] at this
  unfold parseSheetsDT
  simp only [bind, takeDigits_complete_n hd1 hl1, Option.some_bind, expectChar_cons,
    takeDigits_complete_n hd2 hl2, takeDigits_complete_n hd3 hl3,
    takeDigits_complete_n hd4 hl4, takeDigits_complete_n hd5 hl5, hZ]

/-! ## JS date-model and codec lemmas -/

theorem list_len_two {ds : List Char} (hl : ds.length = 2) :
    ∃ a b, ds = [a, b] := by
  rcases ds with _ | ⟨a, ds⟩
  · simp at hl
  rcases ds with _ | ⟨b, ds⟩
  · simp at hl
  rcases ds with _ | ⟨c, ds⟩
  · exact ⟨a, b, rfl⟩
  · simp only [List.length_cons] at hl
    omega

theorem list_len_four {ds : List Char} (hl : ds.length = 4) :
    ∃ a b c d, ds = [a, b, c, d] := by
  rcases ds with _ | ⟨a, ds⟩
  · simp at hl
  rcases ds with _ | ⟨b, ds⟩
  · simp at hl
  rcases ds with _ | ⟨c, ds⟩
  · simp at hl
  rcases ds with _ | ⟨d, ds⟩
  · simp at hl
  rcases ds with _ | ⟨e, ds⟩
  · exact ⟨a, b, c, d, rfl⟩
  · simp only [List.length_cons] at hl
    omega

theorem decDigits_natOfDigits_len4 {ds : List Char} (hl : ds.length = 4)
    (hd : allDigits ds) (hv : 1000 ≤ natOfDigits ds) :
    decDigits (natOfDigits ds) = ds := by
  obtain ⟨a, b, c, d, rfl⟩ := list_len_four hl
  exact decDigits_natOfDigits_four (hd a (by simp)) (hd b (by simp))
    (hd c (by simp)) (hd d (by simp)) hv

theorem pad2_natOfDigits_len2 {ds : List Char} (hl : ds.length = 2)
    (hd : allDigits ds) : pad2 (natOfDigits ds) = ds := by
  obtain ⟨a, b, rfl⟩ := list_len_two hl
  exact pad2_natOfDigits (hd a (by simp)) (hd b (by simp))

theorem daysInMonth_le_31 (y m : Nat) : daysInMonth y m ≤ 31 := by
  unfold daysInMonth
  split_ifs <;> omega

theorem jsUtcFields_valid {f : IsoFields} (hm1 : 1 ≤ f.month) (hm2 : f.month ≤ 12)
    (hd1 : 1 ≤ f.day) (hd2 : f.day ≤ daysInMonth f.year f.month)
    (hh : f.hour ≤ 23) (hmi : f.minute ≤ 59) (hsec : f.second ≤ 59) :
    jsUtcFields f = some ⟨f.year, f.month, f.day, f.hour, f.minute, f.second⟩ := by
  have hd31 : f.day ≤ 31 := le_trans hd2 (daysInMonth_le_31 f.year f.month)
  unfold jsUtcFields
  rw [if_pos ⟨hm1, hm2, hd1, hd31⟩, if_pos ⟨hh, hmi, hsec⟩]
  unfold carryDay
  rw [if_pos hd2]

/-- On a regex-matching string whose fields are a calendar-valid date and
an in-range time, the outbound codec rejoins the input's own digit fields
around a space, dropping the milliseconds. -/
theorem formatForSheets_fields {s : String} {f : IsoFields}
    (hp : parseIso s.data = some f) (hy : 1000 ≤ f.year)
    (hm1 : 1 ≤ f.month) (hm2 : f.month ≤ 12)
    (hd1 : 1 ≤ f.day) (hd2 : f.day ≤ daysInMonth f.year f.month)
    (hh : f.hour ≤ 23) (hmi : f.minute ≤ 59) (hsec : f.second ≤ 59) :
    formatValueForSheets (.str s) =
      .str (String.mk (f.y4 ++ ('-' :: (f.mo2 ++ ('-' :: (f.d2 ++ (' ' ::
        (f.h2 ++ (':' :: (f.mi2 ++ (':' :: f.s2)))))))))) ) := by
  obtain ⟨hcs, hl1, hl2, hl3, hl4, hl5, hl6, hg1, hg2, hg3, hg4, hg5, hg6, hmsf⟩ :=
    parseIso_sound hp
  simp only [formatValueForSheets]
  rw [hp]
  dsimp only
  rw [jsUtcFields_valid hm1 hm2 hd1 hd2 hh hmi hsec]
  unfold renderSheetsDateTime
  dsimp only
  congr 2
  show decDigits f.year ++ ('-' :: (pad2 f.month ++ ('-' :: (pad2 f.day ++
    (' ' :: (pad2 f.hour ++ (':' :: (pad2 f.minute ++ (':' :: pad2 f.second))))))))) = _
  unfold IsoFields.year at hy
  unfold IsoFields.year IsoFields.month IsoFields.day IsoFields.hour
    IsoFields.minute IsoFields.second
  rw [decDigits_natOfDigits_len4 hl1 hg1 hy, pad2_natOfDigits_len2 hl2 hg2,
    pad2_natOfDigits_len2 hl3 hg3, pad2_natOfDigits_len2 hl4 hg4,
    pad2_natOfDigits_len2 hl5 hg5, pad2_natOfDigits_len2 hl6 hg6]

/-- C1 (corrected): outbound (formatValueForSheets) then inbound
(formatValueFromSheets) is the identity on a wire ISO string with
millisecond component `.000`, provided its digit fields form a
calendar-valid UTC date-time: year at least 1000, month 01-12, day
within the month, hour at most 23, minute and second at most 59.
(The unrestricted claim over all regex-matching strings fails: the
codec parses through the JS Date, which calendar-normalizes.) -/
theorem roundtrip_identity_valid_fields {s : String} {f : IsoFields}
    (hp : parseIso s.data = some f) (hms : f.ms3 = some ['0', '0', '0'])
    (hy : 1000 ≤ f.year) (hm1 : 1 ≤ f.month) (hm2 : f.month ≤ 12)
    (hd1 : 1 ≤ f.day) (hd2 : f.day ≤ daysInMonth f.year f.month)
    (hh : f.hour ≤ 23) (hmi : f.minute ≤ 59) (hsec : f.second ≤ 59) :
    formatValueFromSheets (formatValueForSheets (.str s)) = .str s := by
  obtain ⟨hcs, hl1, hl2, hl3, hl4, hl5, hl6, hg1, hg2, hg3, hg4, hg5, hg6, hmsf⟩ :=
    parseIso_sound hp
  rw [formatForSheets_fields hp hy hm1 hm2 hd1 hd2 hh hmi hsec]
  simp only [formatValueFromSheets]
  rw [if_neg (by
    intro h0
    have hdat : f.y4 ++ ('-' :: (f.mo2 ++ ('-' :: (f.d2 ++ (' ' :: (f.h2 ++
        (':' :: (f.mi2 ++ (':' :: f.s2))))))))) = ([] : List Char) :=
      congrArg String.data h0
    rcases List.append_eq_nil.mp hdat with ⟨hy4, _⟩
    rw [hy4] at hl1
    simp at hl1)]
  simp only [parseSheetsDT_render hl1 hl2 hl3 hl4 hl5 hl6 hg1 hg2 hg3 hg4 hg5 hg6]
  congr 1
  apply String.ext
  rw [hcs, hms]
  simp only [String.data_append]
  simp only [isoTail, List.append_assoc, List.cons_append, List.nil_append]

/-- Witness for C1: the round trip is the identity on a concrete valid
`.000` wire timestamp. -/
theorem roundtrip_identity_valid_fields_witness :
    formatValueFromSheets (formatValueForSheets (.str "2025-12-29T17:29:33.000Z")) =
      .str "2025-12-29T17:29:33.000Z" :=
  @roundtrip_identity_valid_fields "2025-12-29T17:29:33.000Z"
    ⟨['2', '0', '2', '5'], ['1', '2'], ['2', '9'], ['1', '7'], ['2', '9'],
      ['3', '3'], some ['0', '0', '0']⟩
    (by decide) (by decide) (by decide) (by decide) (by decide) (by decide)
    (by decide) (by decide) (by decide) (by decide)

/-- Counterexample to C1 as stated: the string 2025-02-30T00:00:00.000Z
matches the wire ISO pattern with millisecond component .000, yet the
round trip returns 2025-03-02T00:00:00.000Z (the JS Date normalizes
February 30 to March 2), not the input. -/
theorem roundtrip_identity_counterexample :
    (parseIso ("2025-02-30T00:00:00.000Z" : String).data).isSome = true ∧
    formatValueFromSheets (formatValueForSheets (.str "2025-02-30T00:00:00.000Z")) =
      .str "2025-03-02T00:00:00.000Z" ∧
    formatValueFromSheets (formatValueForSheets (.str "2025-02-30T00:00:00.000Z")) ≠
      .str "2025-02-30T00:00:00.000Z" := by
  refine ⟨by decide, by decide, by decide⟩

/-- C2 (corrected): on a wire-ISO-matching string whose digit fields form
a calendar-valid UTC date-time (year at least 1000, month 01-12, day
within the month, hour at most 23, minute and second at most 59), the
outbound codec returns exactly the input's own digit fields rejoined as
YYYY-MM-DD HH:mm:ss, the milliseconds dropped.  (The unrestricted claim
fails: regex-matching strings with out-of-range fields are either
calendar-normalized by the JS Date or render as the NaN template.) -/
theorem outbound_verbatim_valid_fields {s : String} {f : IsoFields}
    (hp : parseIso s.data = some f) (hy : 1000 ≤ f.year)
    (hm1 : 1 ≤ f.month) (hm2 : f.month ≤ 12)
    (hd1 : 1 ≤ f.day) (hd2 : f.day ≤ daysInMonth f.year f.month)
    (hh : f.hour ≤ 23) (hmi : f.minute ≤ 59) (hsec : f.second ≤ 59) :
    formatValueForSheets (.str s) =
      .str (String.mk (f.y4 ++ ('-' :: (f.mo2 ++ ('-' :: (f.d2 ++ (' ' ::
        (f.h2 ++ (':' :: (f.mi2 ++ (':' :: f.s2)))))))))) ) :=
  formatForSheets_fields hp hy hm1 hm2 hd1 hd2 hh hmi hsec

/-- Witness for C2: on a concrete valid wire timestamp the outbound codec
drops the milliseconds and rejoins the fields around a space. -/
theorem outbound_verbatim_valid_fields_witness :
    formatValueForSheets (.str "2025-12-29T17:29:33.195Z") =
      .str "2025-12-29 17:29:33" := by
  rw [@outbound_verbatim_valid_fields "2025-12-29T17:29:33.195Z"
    ⟨['2', '0', '2', '5'], ['1', '2'], ['2', '9'], ['1', '7'], ['2', '9'],
      ['3', '3'], some ['1', '9', '5']⟩
    (by decide) (by decide) (by decide) (by decide) (by decide) (by decide)
    (by decide) (by decide) (by decide)]
  decide

/-- Counterexample to C2 as stated: 2025-02-30T00:00:00Z matches the wire
ISO pattern, yet the outbound codec returns 2025-03-02 00:00:00 (the JS
Date normalizes February 30 to March 2), not the input's own fields
2025-02-30 00:00:00. -/
theorem outbound_verbatim_counterexample :
    (parseIso ("2025-02-30T00:00:00Z" : String).data).isSome = true ∧
    formatValueForSheets (.str "2025-02-30T00:00:00Z") = .str "2025-03-02 00:00:00" ∧
    formatValueForSheets (.str "2025-02-30T00:00:00Z") ≠ .str "2025-02-30 00:00:00" := by
  refine ⟨by decide, by decide, by decide⟩

/-! ## C8: identity of both codec directions away from the date patterns -/

/-- C8 (confirmed): a non-empty string matching none of the three date
patterns passes through both codec directions unchanged, and so does
every number and boolean. -/
theorem codec_identity_on_non_dates :
    (∀ s : String, parseIso s.data = none → parseSheetsDT s.data = none →
      parseSheetsDate s.data = none → s ≠ "" →
      formatValueForSheets (.str s) = .str s ∧
      formatValueFromSheets (.str s) = .str s) ∧
    (∀ n : Int, formatValueForSheets (.num n) = .num n ∧
      formatValueFromSheets (.num n) = .num n) ∧
    (∀ b : Bool, formatValueForSheets (.bool b) = .bool b ∧
      formatValueFromSheets (.bool b) = .bool b) := by
  refine ⟨?_, fun n => ⟨rfl, rfl⟩, fun b => ⟨rfl, rfl⟩⟩
  intro s h1 h2 h3 hne
  constructor
  · simp only [formatValueForSheets]
    rw [h1]
  · simp only [formatValueFromSheets]
    rw [if_neg hne, h2]
    dsimp only
    rw [h3]
    rfl

/-- Witness for C8 at a concrete string, number and boolean. -/
theorem codec_identity_on_non_dates_witness :
    (formatValueForSheets (.str "hello") = .str "hello" ∧
      formatValueFromSheets (.str "hello") = .str "hello") ∧
    formatValueForSheets (.num 42) = .num 42 ∧
    formatValueFromSheets (.bool true) = .bool true :=
  ⟨codec_identity_on_non_dates.1 "hello" (by decide) (by decide) (by decide)
      (by decide),
    (codec_identity_on_non_dates.2.1 42).1,
    (codec_identity_on_non_dates.2.2 true).2⟩

/-! ## C5: row-index extraction from the updated-range string -/

theorem takeWhile_append_all {p : Char → Bool} :
    ∀ {xs : List Char} (ys : List Char), (∀ x ∈ xs, p x = true) →
      List.takeWhile p (xs ++ ys) = xs ++ List.takeWhile p ys := by
  intro xs
  induction xs with
  | nil => intro ys _; rfl
  | cons a t ih =>
    intro ys hall
    have ha : p a = true := hall a (by simp)
    simp only [List.cons_append, List.takeWhile_cons, ha, if_true]
    rw [ih ys (fun x hx => hall x (List.mem_cons_of_mem a hx))]

theorem takeWhile_eq_nil {p : Char → Bool} {ys : List Char}
    (h : ∀ c, ys.head? = some c → p c = false) : List.takeWhile p ys = [] := by
  cases ys with
  | nil => rfl
  | cons a t =>
    have := h a rfl
    simp [List.takeWhile_cons, this]

theorem trailingDigits_decomp {t ds : List Char} (hds : allDigits ds)
    (ht : ∀ c, t.getLast? = some c → c.isDigit = false) :
    trailingDigits (t ++ ds) = ds := by
  unfold trailingDigits
  rw [List.reverse_append, takeWhile_append_all t.reverse
    (by intro x hx; exact hds x (List.mem_reverse.mp hx)),
    takeWhile_eq_nil (by intro c hc; exact ht c (by rwa [List.head?_reverse] at hc))]
  simp

theorem trailingDigits_nil_iff {cs : List Char} :
    trailingDigits cs = [] ↔ ∀ c, cs.getLast? = some c → c.isDigit = false := by
  unfold trailingDigits
  constructor
  · intro h c hc
    rw [← List.head?_reverse] at hc
    cases e : cs.reverse with
    | nil => rw [e] at hc; simp at hc
    | cons a tl =>
      rw [e] at hc h
      simp only [List.head?_cons, Option.some.injEq] at hc
      subst hc
      by_cases hd : a.isDigit = true
      · rw [List.takeWhile_cons, if_pos hd] at h
        simp at h
      · simpa using hd
  · intro h
    rw [takeWhile_eq_nil (by intro c hc; exact h c (by rwa [List.head?_reverse] at hc))]
    rfl

/-- C5 (corrected): the rowIndex reported by appendRow is the value of the
maximal trailing run of digit characters of the updated-range string; a
colon may precede that run but is not required.  The -1 sentinel is
returned exactly when the string does not end in a digit (in particular
when it is empty). -/
theorem appendRow_rowIndex_spec (sheetName : String) (headers0 : List String)
    (data : Record) (updatedRange : String) :
    ((appendRow sheetName headers0 data updatedRange).2 = -1 ↔
      ∀ c, updatedRange.data.getLast? = some c → c.isDigit = false) ∧
    (∀ t ds, updatedRange.data = t ++ ds → ds ≠ [] → allDigits ds →
      (∀ c, t.getLast? = some c → c.isDigit = false) →
      (appendRow sheetName headers0 data updatedRange).2 =
        Int.ofNat (natOfDigits ds)) := by
  constructor
  · show parseRowIndex updatedRange = -1 ↔ _
    unfold parseRowIndex
    rw [← trailingDigits_nil_iff]
    cases trailingDigits updatedRange.data with
    | nil => simp
    | cons a tl => simp
  · intro t ds hsplit hne hds ht
    show parseRowIndex updatedRange = _
    unfold parseRowIndex
    rw [hsplit, trailingDigits_decomp hds ht]
    cases ds with
    | nil => exact absurd rfl hne
    | cons a tl => rfl

/-- Witness for C5: a realistic range yields the trailing integer, both
in the colon form and with the decomposition hypotheses discharged. -/
theorem appendRow_rowIndex_spec_witness :
    (appendRow "S" ["a"] [] "A2:D7").2 = Int.ofNat (natOfDigits ['7']) :=
  (appendRow_rowIndex_spec "S" ["a"] [] "A2:D7").2
    ['A', '2', ':', 'D'] ['7'] (by decide) (by decide) (by decide) (by decide)

/-- Counterexample to C5 as stated: the updated-range string Sheet1!A7
contains no colon at all, so it has no colon-suffixed trailing integer
and the claim demands the -1 sentinel, yet appendRow reports row index 7
(the colon in the source regex is optional). -/
theorem appendRow_rowIndex_counterexample :
    (¬ ':' ∈ ("Sheet1!A7" : String).data) ∧
    (appendRow "S" ["a"] [] "Sheet1!A7").2 = 7 ∧
    (appendRow "S" ["a"] [] "Sheet1!A7").2 ≠ -1 := by
  refine ⟨by decide, by decide, by decide⟩

/-! ## C6: not-found behaviour of deleteSheet and deleteRow -/

/-- C6 (confirmed): deleteSheet and deleteRow fail with exactly the
message of the template Sheet "name" not found if and only if no sheet
with the given title is in the listing, and on that failure they issue no
backend call (the error is thrown before any write; an Except.error
result carries no calls).  When they succeed, a sheet with the title
exists. -/
theorem delete_notfound_spec (sheetsList : List SheetInfo) (name : String)
    (rowIndex : Int) :
    (∀ e, deleteSheet sheetsList name = .error e ↔
      (e = sheetNotFoundMsg name ∧ ∀ sh ∈ sheetsList, sh.title ≠ name)) ∧
    (∀ e, deleteRow sheetsList name rowIndex = .error e ↔
      (e = sheetNotFoundMsg name ∧ ∀ sh ∈ sheetsList, sh.title ≠ name)) ∧
    (∀ calls, deleteSheet sheetsList name = .ok calls →
      ∃ sh ∈ sheetsList, sh.title = name) ∧
    (∀ calls, deleteRow sheetsList name rowIndex = .ok calls →
      ∃ sh ∈ sheetsList, sh.title = name) := by
  unfold deleteSheet deleteRow
  cases e : findSheet sheetsList name with
  | none =>
    have hnone : ∀ sh ∈ sheetsList, sh.title ≠ name := by
      intro sh hsh
      have := List.find?_eq_none.mp e sh hsh
      simpa using this
    refine ⟨?_, ?_, ?_, ?_⟩
    · intro ex
      constructor
      · intro hx
        simp only [Except.error.injEq] at hx
        exact ⟨hx.symm, hnone⟩
      · intro ⟨hx, _⟩
        rw [hx]
    · intro ex
      constructor
      · intro hx
        simp only [Except.error.injEq] at hx
        exact ⟨hx.symm, hnone⟩
      · intro ⟨hx, _⟩
        rw [hx]
    · intro calls hx
      exact absurd hx (by simp)
    · intro calls hx
      exact absurd hx (by simp)
  | some sh =>
    have hfound := List.find?_some e
    have hmem := List.mem_of_find?_eq_some e
    have htitle : sh.title = name := by simpa using hfound
    refine ⟨?_, ?_, ?_, ?_⟩
    · intro ex
      constructor
      · intro hx
        simp at hx
      · intro ⟨_, hall⟩
        exact absurd htitle (hall sh hmem)
    · intro ex
      constructor
      · intro hx
        simp at hx
      · intro ⟨_, hall⟩
        exact absurd htitle (hall sh hmem)
    · intro calls _
      exact ⟨sh, hmem, htitle⟩
    · intro calls _
      exact ⟨sh, hmem, htitle⟩

/-- Witness for C6: a concrete listing without the requested title gives
exactly the templated error, and with the title present delete succeeds. -/
theorem delete_notfound_spec_witness :
    deleteSheet [⟨1, "A", 0⟩] "B" = .error (sheetNotFoundMsg "B") ∧
    deleteRow [⟨1, "A", 0⟩] "B" 3 = .error (sheetNotFoundMsg "B") :=
  ⟨((delete_notfound_spec [⟨1, "A", 0⟩] "B" 3).1 (sheetNotFoundMsg "B")).mpr
      ⟨rfl, by decide⟩,
    ((delete_notfound_spec [⟨1, "A", 0⟩] "B" 3).2.1 (sheetNotFoundMsg "B")).mpr
      ⟨rfl, by decide⟩⟩

/-! ## Record-building lemmas -/

theorem setKey_lookup_self (r : Record) (k : String) (v : Value) :
    (setKey r k v).lookup k = some v := by
  induction r with
  | nil => simp [setKey, List.lookup]
  | cons p t ih =>
    obtain ⟨pk, pv⟩ := p
    unfold setKey
    by_cases hp : pk = k
    · rw [if_pos hp]
      simp [List.lookup]
    · rw [if_neg hp]
      have hb : (k == pk) = false := beq_eq_false_iff_ne.mpr (Ne.symm hp)
      simp only [List.lookup, hb]
      exact ih

theorem setKey_lookup_ne (r : Record) (k : String) (v : Value) {k2 : String}
    (h : k2 ≠ k) : (setKey r k v).lookup k2 = r.lookup k2 := by
  induction r with
  | nil =>
    have hb : (k2 == k) = false := beq_eq_false_iff_ne.mpr h
    simp [setKey, List.lookup, hb]
  | cons p t ih =>
    obtain ⟨pk, pv⟩ := p
    unfold setKey
    by_cases hp : pk = k
    · rw [if_pos hp]
      subst hp
      have hb : (k2 == pk) = false := beq_eq_false_iff_ne.mpr h
      simp only [List.lookup, hb]
    · rw [if_neg hp]
      by_cases h2 : k2 = pk
      · subst h2
        simp [List.lookup]
      · have hb : (k2 == pk) = false := beq_eq_false_iff_ne.mpr h2
        simp only [List.lookup, hb]
        exact ih

theorem setKey_keys_mem (r : Record) (k : String) (v : Value) (a : String) :
    a ∈ (setKey r k v).map Prod.fst ↔ a ∈ r.map Prod.fst ∨ a = k := by
  induction r with
  | nil => simp [setKey]
  | cons p t ih =>
    obtain ⟨pk, pv⟩ := p
    unfold setKey
    by_cases hp : pk = k
    · rw [if_pos hp]
      subst hp
      simp only [List.map_cons, List.mem_cons]
      tauto
    · rw [if_neg hp]
      simp only [List.map_cons, List.mem_cons, ih]
      tauto

theorem setKey_keys_nodup (r : Record) (k : String) (v : Value)
    (h : (r.map Prod.fst).Nodup) : ((setKey r k v).map Prod.fst).Nodup := by
  induction r with
  | nil => simp [setKey]
  | cons p t ih =>
    obtain ⟨pk, pv⟩ := p
    simp only [List.map_cons, List.nodup_cons] at h
    unfold setKey
    by_cases hp : pk = k
    · subst hp
      rw [if_pos rfl]
      simp only [List.map_cons, List.nodup_cons]
      exact ⟨h.1, h.2⟩
    · rw [if_neg hp]
      simp only [List.map_cons, List.nodup_cons]
      refine ⟨?_, ih h.2⟩
      intro hc
      rw [setKey_keys_mem] at hc
      rcases hc with hc | hc
      · exact h.1 hc
      · exact hp hc

theorem rowCell_tail (row : List Value) (i : Nat) :
    rowCell row.tail i = rowCell row (i + 1) := by
  cases row with
  | nil => rfl
  | cons a t => rfl

theorem buildRecordGo_lookup_not_mem {k : String} :
    ∀ (hs : List String) (row : List Value) (r : Record), k ∉ hs →
      (buildRecordGo r hs row).lookup k = r.lookup k := by
  intro hs
  induction hs with
  | nil => intro row r _; rfl
  | cons h0 t ih =>
    intro row r hk
    unfold buildRecordGo
    rw [ih row.tail _ (fun hmem => hk (List.mem_cons_of_mem h0 hmem)),
      setKey_lookup_ne _ _ _
        (fun he => hk (by rw [he]; exact List.mem_cons_self h0 t))]

theorem buildRecordGo_lookup_last {k : String} :
    ∀ (hs : List String) (row : List Value) (r : Record) (i : Nat)
      (hi : i < hs.length), hs.get ⟨i, hi⟩ = k →
      (∀ j (hj : j < hs.length), i < j → hs.get ⟨j, hj⟩ ≠ k) →
      (buildRecordGo r hs row).lookup k =
        some (formatValueFromSheets (rowCell row i)) := by
  intro hs
  induction hs with
  | nil => intro row r i hi; simp at hi
  | cons h0 t ih =>
    intro row r i hi hget hlater
    cases i with
    | zero =>
      have hk : h0 = k := hget
      have hnot : k ∉ t := by
        intro hmem
        obtain ⟨idx, hidx⟩ := List.mem_iff_get.mp hmem
        exact hlater (idx.1 + 1) (by simp) (Nat.succ_pos idx.1)
          (by simpa using hidx)
      unfold buildRecordGo
      rw [buildRecordGo_lookup_not_mem t row.tail _ hnot, hk,
        setKey_lookup_self]
    | succ i2 =>
      unfold buildRecordGo
      rw [ih row.tail _ i2 (by simpa using hi) (by simpa using hget)
        (fun j hj hlt => by
          have := hlater (j + 1) (by simpa using hj) (by omega)
          simpa using this), rowCell_tail]

theorem buildRecordGo_keys_mem (a : String) :
    ∀ (hs : List String) (row : List Value) (r : Record),
      a ∈ (buildRecordGo r hs row).map Prod.fst ↔
        a ∈ r.map Prod.fst ∨ a ∈ hs := by
  intro hs
  induction hs with
  | nil => intro row r; simp [buildRecordGo]
  | cons h0 t ih =>
    intro row r
    unfold buildRecordGo
    rw [ih row.tail _, setKey_keys_mem]
    simp only [List.mem_cons]
    tauto

theorem buildRecordGo_keys_nodup :
    ∀ (hs : List String) (row : List Value) (r : Record),
      (r.map Prod.fst).Nodup → ((buildRecordGo r hs row).map Prod.fst).Nodup := by
  intro hs
  induction hs with
  | nil => intro row r h; exact h
  | cons h0 t ih =>
    intro row r h
    unfold buildRecordGo
    exact ih row.tail _ (setKey_keys_nodup _ _ _ h)

/-! ## C3, C9, C10: getRows / getRow record construction -/

/-- C3 (confirmed): getRows returns the empty list whenever the fetched
grid has fewer than 2 rows; otherwise each data row becomes the record
built by zipping it positionally against the text-coerced row-1 headers,
every cell through the inbound codec: under distinct headers the value at
header i is the codec image of cell i, positions beyond the row's length
read as null, and no record key lies outside the headers (surplus cells
are dropped). -/
theorem getRows_spec :
    (∀ values : List (List Value), values.length < 2 → getRows values = []) ∧
    (∀ (hrow : List Value) (rest : List (List Value)), rest ≠ [] →
      getRows (hrow :: rest) =
        rest.map (fun row => buildRecord (hrow.map jsString) row)) ∧
    (∀ (headers : List String) (row : List Value) (i : Nat)
      (hi : i < headers.length), headers.Nodup →
      (buildRecord headers row).lookup (headers.get ⟨i, hi⟩) =
        some (formatValueFromSheets (rowCell row i))) ∧
    (∀ (row : List Value) (i : Nat), row.length ≤ i →
      formatValueFromSheets (rowCell row i) = Value.null) ∧
    (∀ (headers : List String) (row : List Value) (a : String),
      a ∈ (buildRecord headers row).map Prod.fst → a ∈ headers) := by
  refine ⟨?_, ?_, ?_, ?_, ?_⟩
  · intro values h
    unfold getRows
    rw [if_pos h]
  · intro hrow rest hne
    unfold getRows
    rw [if_neg (by cases rest with
      | nil => exact absurd rfl hne
      | cons a t => simp only [List.length_cons]; omega)]
    rfl
  · intro headers row i hi hnd
    exact buildRecordGo_lookup_last headers row [] i hi rfl
      (fun j hj hlt hget => by
        have : (⟨j, hj⟩ : Fin headers.length) = ⟨i, hi⟩ :=
          (List.nodup_iff_injective_get.mp hnd) hget
        have : j = i := congrArg Fin.val this
        omega)
  · intro row i h
    unfold rowCell
    rw [List.getD_eq_default _ _ h]
    rfl
  · intro headers row a ha
    have := (buildRecordGo_keys_mem a headers row []).mp ha
    simpa using this

/-- Witness for C3 at a concrete grid: a single-row grid gives no
records; a short data row reads null under the second header; the record
key is among the headers. -/
theorem getRows_spec_witness :
    getRows [[Value.str "id"]] = [] ∧
    getRows [[.str "a", .str "b"], [.num 1]] = [buildRecord ["a", "b"] [.num 1]] ∧
    (buildRecord ["a", "b"] [.num 1]).lookup "b" = some Value.null ∧
    formatValueFromSheets (rowCell [Value.num 1] 1) = Value.null := by
  refine ⟨getRows_spec.1 [[Value.str "id"]] (by decide), ?_, ?_, ?_⟩
  · rw [getRows_spec.2.1 [.str "a", .str "b"] [[.num 1]] (by simp)]
    rfl
  · have := getRows_spec.2.2.1 ["a", "b"] [.num 1] 1 (by decide) (by decide)
    simpa using this
  · exact getRows_spec.2.2.2.1 [Value.num 1] 1 (by decide)

/-- C9 (confirmed): when a header name occupies several columns, the
record built for a row (by getRows and by getRow alike) holds that name
as a single key whose value is the inbound-codec image of the cell of the
right-most duplicate column; the earlier columns' values are lost. -/
theorem duplicate_headers_last_wins (headers : List String) (row : List Value)
    (k : String) (i : Nat) (hi : i < headers.length)
    (hget : headers.get ⟨i, hi⟩ = k)
    (hlast : ∀ j (hj : j < headers.length), i < j → headers.get ⟨j, hj⟩ ≠ k) :
    (buildRecord headers row).lookup k =
      some (formatValueFromSheets (rowCell row i)) ∧
    ((buildRecord headers row).map Prod.fst).count k = 1 ∧
    getRow headers (some row) = some (buildRecord headers row) := by
  refine ⟨buildRecordGo_lookup_last headers row [] i hi hget hlast, ?_, rfl⟩
  refine List.count_eq_one_of_mem (buildRecordGo_keys_nodup headers row [] (by simp)) ?_
  rw [show buildRecord headers row = buildRecordGo [] headers row from rfl,
    buildRecordGo_keys_mem]
  exact Or.inr (hget ▸ List.get_mem headers i hi)

/-- Witness for C9: with headers [a, b, a], the built record holds a
single key a carrying the third column's value. -/
theorem duplicate_headers_last_wins_witness :
    (buildRecord ["a", "b", "a"] [.num 1, .num 2, .num 3]).lookup "a" =
      some (formatValueFromSheets (rowCell [.num 1, .num 2, .num 3] 2)) ∧
    ((buildRecord ["a", "b", "a"] [.num 1, .num 2, .num 3]).map Prod.fst).count "a" = 1 ∧
    getRow ["a", "b", "a"] (some [.num 1, .num 2, .num 3]) =
      some (buildRecord ["a", "b", "a"] [.num 1, .num 2, .num 3]) :=
  duplicate_headers_last_wins ["a", "b", "a"] [.num 1, .num 2, .num 3] "a" 2
    (by decide) (by decide)
    (fun j hj hlt => by
      simp only [List.length_cons, List.length_nil] at hj
      exact absurd hj (by omega))

/-- C10 (confirmed): the key set of every record built by getRows, and of
every some-record returned by getRow, is exactly the set of text-coerced
row-1 header names, with no duplicate keys, whatever the data row's
length; with an empty header row and an existing data row, getRow returns
the empty record rather than null. -/
theorem record_keys_exactly_headers :
    (∀ (values : List (List Value)) (rec : Record), rec ∈ getRows values →
      ∀ a, a ∈ rec.map Prod.fst ↔ a ∈ (values.headD []).map jsString) ∧
    (∀ (headers : List String) (row : List Value) (rec : Record),
      getRow headers (some row) = some rec →
      (∀ a, a ∈ rec.map Prod.fst ↔ a ∈ headers) ∧ (rec.map Prod.fst).Nodup) ∧
    (∀ row : List Value, getRow [] (some row) = some []) ∧
    (∀ headers : List String, getRow headers none = none) := by
  refine ⟨?_, ?_, fun row => rfl, fun headers => rfl⟩
  · intro values rec hrec a
    unfold getRows at hrec
    by_cases hlen : values.length < 2
    · rw [if_pos hlen] at hrec
      simp at hrec
    · rw [if_neg hlen] at hrec
      obtain ⟨row, hrow, hbuild⟩ := List.mem_map.mp hrec
      subst hbuild
      rw [show buildRecord ((values.headD []).map jsString) row =
        buildRecordGo [] ((values.headD []).map jsString) row from rfl,
        buildRecordGo_keys_mem]
      simp
  · intro headers row rec hrec
    simp only [getRow, Option.some.injEq] at hrec
    subst hrec
    constructor
    · intro a
      rw [show buildRecord headers row = buildRecordGo [] headers row from rfl,
        buildRecordGo_keys_mem]
      simp
    · exact buildRecordGo_keys_nodup headers row [] (by simp)

/-- Witness for C10 at concrete inputs: the single header is the record's
only key, and a data row under an empty header row gives the empty
record. -/
theorem record_keys_exactly_headers_witness :
    ("x" ∈ (buildRecord ["x"] []).map Prod.fst) ∧
    getRow [] (some [Value.num 5]) = some [] :=
  ⟨((record_keys_exactly_headers.2.1 ["x"] [] (buildRecord ["x"] []) rfl).1 "x").mpr
      (by simp),
    record_keys_exactly_headers.2.2.1 [Value.num 5]⟩

/-! ## C4, C7: appendRow / updateRow write shape -/

theorem lookup_filter_contains (data : Record) (headers : List String)
    {h : String} (hmem : h ∈ headers) :
    (data.filter (fun p => headers.contains p.1)).lookup h = data.lookup h := by
  induction data with
  | nil => rfl
  | cons p t ih =>
    obtain ⟨pk, pv⟩ := p
    rw [List.filter_cons]
    by_cases hp : pk = h
    · subst hp
      rw [if_pos (by simpa using List.elem_iff.mpr hmem)]
      simp [List.lookup]
    · have hb : (h == pk) = false := beq_eq_false_iff_ne.mpr (Ne.symm hp)
      by_cases hk : headers.contains pk = true
      · rw [if_pos hk]
        simp only [List.lookup, hb]
        exact ih
      · rw [if_neg hk]
        simp only [List.lookup, hb]
        exact ih

theorem lookupD_filter_contains (data : Record) (headers : List String)
    {h : String} (hmem : h ∈ headers) :
    lookupD (data.filter (fun p => headers.contains p.1)) h = lookupD data h := by
  unfold lookupD
  rw [lookup_filter_contains data headers hmem]

/-- C4 (confirmed): updateRow issues exactly one write, a full replace of
the target row range: one cell per current header, in header order, where
a header whose key is omitted from (or null in) the input data is written
as the empty string — omitted fields are cleared, never kept — and keys
of data that are not headers have no effect on the written row (removing
them changes nothing). -/
theorem updateRow_full_replace (sheetName : String) (headers : List String)
    (rowIndex : Int) (data : Record) :
    (∃ vals,
      updateRow sheetName headers rowIndex data =
        [.updateValues (.rowRange sheetName rowIndex) vals] ∧
      vals.length = headers.length ∧
      (∀ j (hj : j < headers.length),
        vals.getD j .null =
          formatValueForSheets (lookupD data (headers.get ⟨j, hj⟩))) ∧
      (∀ j (hj : j < headers.length),
        lookupD data (headers.get ⟨j, hj⟩) = .null →
          vals.getD j .null = .str "")) ∧
    updateRow sheetName headers rowIndex
        (data.filter (fun p => headers.contains p.1)) =
      updateRow sheetName headers rowIndex data := by
  constructor
  · have hcell : ∀ j (hj : j < headers.length),
        (headers.map (fun h => formatValueForSheets (lookupD data h))).getD j .null =
          formatValueForSheets (lookupD data (headers.get ⟨j, hj⟩)) := by
      intro j hj
      rw [List.getD_eq_getElem _ _ (by simpa using hj), List.getElem_map]
      rfl
    refine ⟨headers.map (fun h => formatValueForSheets (lookupD data h)),
      rfl, by simp, hcell, ?_⟩
    intro j hj hnull
    rw [hcell j hj, hnull]
    rfl
  · unfold updateRow
    congr 1
    congr 1
    exact List.map_congr_left
      (fun h hmem => by rw [lookupD_filter_contains data headers hmem])

/-- Witness for C4: a concrete update; the header a is absent from the
data so its cell is cleared to the empty string, and the non-header key
zz is dropped. -/
theorem updateRow_full_replace_witness :
    updateRow "S" ["a", "b"] 4 [("b", Value.num 2), ("zz", Value.num 9)] =
      [.updateValues (.rowRange "S" 4) [.str "", .num 2]] ∧
    updateRow "S" ["a", "b"] 4
        ([("b", Value.num 2), ("zz", Value.num 9)].filter
          (fun p => (["a", "b"] : List String).contains p.1)) =
      updateRow "S" ["a", "b"] 4 [("b", Value.num 2), ("zz", Value.num 9)] :=
  ⟨by decide,
    (updateRow_full_replace "S" ["a", "b"] 4
      [("b", Value.num 2), ("zz", Value.num 9)]).2⟩

/-- C7 (confirmed): with a non-empty header row, appendRow issues only
the single append projected onto the existing headers — row 1 is never
written, so the header sequence is unchanged and never reordered — and
input keys that are not headers influence no written cell (filtering
them away changes nothing, in appendRow and in updateRow); updateRow
never writes row 1 when its target index is at least 2; the row-1 header
write happens exactly on an append to a sheet with no headers, writing
data's own key list. -/
theorem headers_never_rewritten (sheetName : String) (headers0 : List String)
    (data : Record) (updatedRange : String) (rowIndex : Int) :
    (headers0 ≠ [] →
      (appendRow sheetName headers0 data updatedRange).1 =
        [.appendValues (.wholeSheet sheetName)
          (headers0.map (fun h => formatValueForSheets (lookupD data h)))] ∧
      (∀ rng vals, BackendCall.updateValues rng vals ∉
        (appendRow sheetName headers0 data updatedRange).1) ∧
      (appendRow sheetName headers0
          (data.filter (fun p => headers0.contains p.1)) updatedRange).1 =
        (appendRow sheetName headers0 data updatedRange).1) ∧
    (headers0 = [] →
      (appendRow sheetName headers0 data updatedRange).1 =
        [.updateValues (.rowRange sheetName 1) ((data.map Prod.fst).map Value.str),
          .appendValues (.wholeSheet sheetName)
            ((data.map Prod.fst).map
              (fun h => formatValueForSheets (lookupD data h)))]) ∧
    (2 ≤ rowIndex → ∀ vals,
      BackendCall.updateValues (.rowRange sheetName 1) vals ∉
        updateRow sheetName headers0 rowIndex data) ∧
    updateRow sheetName headers0 rowIndex
        (data.filter (fun p => headers0.contains p.1)) =
      updateRow sheetName headers0 rowIndex data := by
  refine ⟨?_, ?_, ?_, ?_⟩
  · intro hne
    cases headers0 with
    | nil => exact absurd rfl hne
    | cons h0 t =>
      refine ⟨rfl, ?_, ?_⟩
      · intro rng vals hmem
        simp [appendRow] at hmem
      · show ([] ++ [BackendCall.appendValues _ _], _).1 = ([] ++ [_], _).1
        simp only [List.nil_append]
        congr 2
        exact List.map_congr_left
          (fun h hmem => by rw [lookupD_filter_contains data (h0 :: t) hmem])
  · intro he
    subst he
    rfl
  · intro h2 vals hmem
    simp only [updateRow, List.mem_singleton] at hmem
    have := (BackendCall.updateValues.injEq _ _ _ _).mp hmem
    have h1 : (RangeExpr.rowRange sheetName 1) = .rowRange sheetName rowIndex :=
      this.1
    have := (RangeExpr.rowRange.injEq _ _ _ _).mp h1
    omega
  · unfold updateRow
    congr 1
    congr 1
    exact List.map_congr_left
      (fun h hmem => by rw [lookupD_filter_contains data headers0 hmem])

/-- Witness for C7: with a header present, only the append write is
issued; with no headers, the header row is written first from data's
keys. -/
theorem headers_never_rewritten_witness :
    (appendRow "S" ["x"] [("y", Value.num 1)] "A2").1 =
      [.appendValues (.wholeSheet "S") [.str ""]] ∧
    (appendRow "S" [] [("y", Value.num 1)] "A2").1 =
      [.updateValues (.rowRange "S" 1) [.str "y"],
        .appendValues (.wholeSheet "S") [.num 1]] := by
  have h1 := headers_never_rewritten "S" ["x"] [("y", Value.num 1)] "A2" 2
  have h2 := headers_never_rewritten "S" [] [("y", Value.num 1)] "A2" 2
  refine ⟨?_, ?_⟩
  · rw [(h1.1 (by decide)).1]
    decide
  · rw [h2.2.1 rfl]
    decide

end SheetsDb
